import Mathlib

/-!
Verification development for `src/qaoa_task.py`.

The script builds, for an L x 8 array of rotation angles, a 4-qubit circuit of
alternating blocks (an "even" block: one moment of Rz rotations followed by the
six pairwise CZ gates; an "odd" block: one moment of Rx rotations), simulates it
from the all-zeros state, and sweeps layer counts while minimizing the L2
distance of the output state to a random target state with a 10-restart bounded
minimizer.  This file gives a shallow embedding of that script and proves the
properties claimed of it.

Modelling conventions:
* amplitudes are exact complex numbers (`ℂ`), angles exact reals (`ℝ`) — the
  Python floats are embedded as real numbers;
* the external Scipy minimizer and the random sources (NumPy's uniform sampler
  and `cirq.testing.random_superposition`) are oracle parameters: an abstract
  minimizer function, a stream `r : ℕ → ℝ` of uniform draws, and a stream
  `phiGen : ℕ → QState` of random states consumed in order;
* cirq's `circuit.append` packs operations into moments, but the simulated
  state only depends on the sequential order of the gates, which is what the
  embedding keeps: a circuit is the list of appended moments, each moment a
  list of gates on distinct qubits, applied in order;
* Python's dynamic values inside `GridSearch` (where a list is stored into a
  slot that should hold a float) are modelled by the inductive type `PyVal`,
  and operations that would raise (`np.array` on a ragged list, arithmetic or
  comparison on a list) are modelled with `Option`/error outcomes.
-/

/-- A 4-qubit state: 16 complex amplitudes, in cirq's `state_vector` order
(qubit 0 is the most significant bit of the index). -/
abbrev QState := Fin 16 → ℂ

/-- The bit of basis-state index `i` belonging to line qubit `q`
(cirq is big-endian: qubit 0 is the most significant bit). -/
def qubitBit (q : Fin 4) (i : Fin 16) : Bool :=
  (i.val / 2 ^ (3 - q.val)) % 2 = 1

/-- Flipping qubit `q`'s bit in basis-state index `i`. -/
def flipBit (q : Fin 4) (i : Fin 16) : Fin 16 :=
  ⟨i.val ^^^ 2 ^ (3 - q.val), by revert q i; decide⟩

/-- The gates appearing in the script: `cirq.rz`, `cirq.rx` and `cirq.CZ`. -/
inductive Gate where
  | rz (q : Fin 4) (theta : ℝ)
  | rx (q : Fin 4) (theta : ℝ)
  | cz (a b : Fin 4)

/-- Action of a single gate on the state:
`rz θ = diag (exp (-I θ/2), exp (I θ/2))`,
`rx θ = [[cos (θ/2), -I sin (θ/2)], [-I sin (θ/2), cos (θ/2)]]` on the target
qubit, and `CZ` flips the sign of amplitudes where both control bits are 1. -/
noncomputable def applyGate : Gate → QState → QState
  | Gate.rz q th, psi => fun i =>
      (if qubitBit q i then Complex.exp (Complex.I * ((th : ℂ) / 2))
       else Complex.exp (-(Complex.I * ((th : ℂ) / 2)))) * psi i
  | Gate.rx q th, psi => fun i =>
      (Real.cos (th / 2) : ℂ) * psi i -
        Complex.I * (Real.sin (th / 2) : ℂ) * psi (flipBit q i)
  | Gate.cz a b, psi => fun i =>
      if qubitBit a i && qubitBit b i then -psi i else psi i

/-- A moment: a list of gates (in the script, always on distinct qubits). -/
abbrev Moment := List Gate

/-- Applying a moment = applying its gates in order. -/
noncomputable def applyMoment (psi : QState) (m : Moment) : QState :=
  m.foldl (fun s g => applyGate g s) psi

/-- The all-zeros initial state `|0000⟩` the simulator starts from. -/
def ket0 : QState := fun i => if i = 0 then 1 else 0

/-- `EvenBlockMoments`: one moment of Rz rotations by `angles[0..3]` on qubits
0..3, followed by the six pairwise CZ gates, each appended on its own
(source lines 13-21).  The four line qubits are inlined as `Fin 4`. -/
def EvenBlockMoments (angles : List ℝ) : List Moment :=
  ((List.finRange 4).map fun q => Gate.rz q (angles.getD (q : ℕ) 0)) ::
    [[Gate.cz 0 1], [Gate.cz 0 2], [Gate.cz 0 3],
     [Gate.cz 1 2], [Gate.cz 1 3], [Gate.cz 2 3]]

/-- `OddBlockMoments`: a single moment of Rx rotations by `angles[0..3]` on
qubits 0..3 (source lines 26-27). -/
def OddBlockMoments (angles : List ℝ) : List Moment :=
  [(List.finRange 4).map fun q => Gate.rx q (angles.getD (q : ℕ) 0)]

/-- The circuit built by `RunCircuit`'s loop (source lines 35-43): for each row
of the angle array, append the even block on the first four entries and the odd
block on the last four. -/
def buildCircuit (angle_array : List (List ℝ)) : List Moment :=
  angle_array.foldl
    (fun c row => c ++ EvenBlockMoments (row.take 4) ++ OddBlockMoments (row.drop 4)) []

/-- `RunCircuit` (source lines 33-48): build the circuit for the angle array
and return the simulated state vector starting from zeros (no measurement). -/
noncomputable def RunCircuit (angle_array : List (List ℝ)) : QState :=
  (buildCircuit angle_array).foldl applyMoment ket0

/-- Sum of squared amplitude moduli of a state. -/
noncomputable def nsq (psi : QState) : ℝ := ∑ i, Complex.normSq (psi i)

/-- The L2 norm `np.linalg.norm` computes on a 16-entry complex vector. -/
noncomputable def l2norm (psi : QState) : ℝ := Real.sqrt (nsq psi)

/-- `np.reshape` to `(len // 8, 8)`: succeeds exactly when the length is a
multiple of 8, yielding the row-major blocks of 8. -/
def reshape8 (xs : List ℝ) : Option (List (List ℝ)) :=
  if xs.isEmpty then some []
  else if _h : 8 ≤ xs.length then
    (reshape8 (xs.drop 8)).map (xs.take 8 :: ·)
  else none
termination_by xs.length
decreasing_by simp [List.length_drop]; omega

/-- The row-major blocks of 8 written by direct indexing: block `i` is
`xs[8*i .. 8*i+8]`. -/
def chunksSpec (xs : List ℝ) : List (List ℝ) :=
  (List.range (xs.length / 8)).map fun i => (xs.drop (8 * i)).take 8

/-- The `Objective` closure of `GeneratePlot` (source lines 93-95): reshape the
flat angle vector to `(len // 8, 8)` and return the L2 norm of `phi` minus the
circuit's output state; `none` models the `ValueError` when the length is not
a multiple of 8. -/
noncomputable def Objective (phi : QState) (angles : List ℝ) : Option ℝ :=
  (reshape8 angles).map fun A => l2norm (phi - RunCircuit A)

/-! ### The layer sweep of `GeneratePlot`

`scipy.optimize.minimize` is modelled as an oracle returning the final
objective value `opt.fun`; the uniform sampler `np.random.uniform` as a stream
`r : ℕ → ℝ` of draws consumed left to right; the target-state sampler
`cirq.testing.random_superposition` as a stream `phiGen : ℕ → QState` of which
`GeneratePlot` consumes the first element. -/

/-- Oracle model of `scipy.optimize.minimize(Objective, start, bounds=bounds)`:
it receives the objective, the start point and the bounds and returns the final
objective value `opt.fun`. -/
def Minimizer : Type :=
  (List ℝ → Option ℝ) → List ℝ → List (ℝ × ℝ) → ℝ

/-- The update in `if opt.fun < opt_val: opt_val = opt.fun`, with `none`
standing for the initial `float('inf')`. -/
noncomputable def updOpt (acc : Option ℝ) (v : ℝ) : Option ℝ :=
  match acc with
  | none => some v
  | some a => if v < a then some v else some a

/-- The restart loop's running minimum over a list of values (source lines
109-114). -/
noncomputable def foldMinInf (vals : List ℝ) : Option ℝ :=
  vals.foldl updOpt none

/-- The draws `np.random.uniform(low=0, high=2*pi, size=n)` takes from the
stream `r`, starting at offset `off`. -/
def uniformDraws (r : ℕ → ℝ) (off n : ℕ) : List ℝ :=
  (List.range n).map fun j => r (off + j)

/-- Everything one iteration of the `for L in range(2, max_L)` loop produces:
the layer count, the bounds, the 10 random start vectors, the 10 final
objective values, the recorded best value and the objective function handed to
the minimizer. -/
structure LayerRecord where
  L : ℕ
  bounds : List (ℝ × ℝ)
  starts : List (List ℝ)
  vals : List ℝ
  best : Option ℝ
  obj : List ℝ → Option ℝ

/-- One iteration of the layer loop (source lines 99-115): bounds are
`8*L` copies of `(0, 2*pi)`, each of the 10 restarts draws a fresh start
vector of `8*L` uniform values from the stream and calls the minimizer, and
the best value is the running minimum of the returned values. -/
noncomputable def layerStep (M : Minimizer) (obj : List ℝ → Option ℝ)
    (r : ℕ → ℝ) (off : ℕ) (L : ℕ) : LayerRecord :=
  let bounds := List.replicate (8 * L) (0, 2 * Real.pi)
  let starts := (List.range 10).map fun k => uniformDraws r (off + k * (8 * L)) (8 * L)
  let vals := starts.map fun s => M obj s bounds
  { L := L, bounds := bounds, starts := starts, vals := vals
    best := foldMinInf vals, obj := obj }

/-- The layer loop over a list of layer counts, threading the offset into the
random stream (each layer consumes `10 * 8 * L` draws). -/
noncomputable def sweepLayers (M : Minimizer) (obj : List ℝ → Option ℝ)
    (r : ℕ → ℝ) : ℕ → List ℕ → List LayerRecord
  | _, [] => []
  | off, L :: rest =>
      layerStep M obj r off L :: sweepLayers M obj r (off + 10 * (8 * L)) rest

/-- An external optimizer invocation made by `GeneratePlot`: either a call to
`scipy.optimize.minimize` or a call to the script's own `GridSearch`. -/
inductive OptCall where
  | scipyMinimize (start : List ℝ) (bounds : List (ℝ × ℝ))
  | gridSearchCall (center : List ℝ) (width resolution : ℝ)

/-- Whether an optimizer invocation is a `scipy.optimize.minimize` call. -/
def OptCall.isScipy : OptCall → Bool
  | OptCall.scipyMinimize _ _ => true
  | OptCall.gridSearchCall _ _ _ => false

/-- The observable outcome of a `GeneratePlot` run: the sampled target state,
the per-layer records, the two sequences handed to `plt.plot` and the list of
external optimizer invocations in order. -/
structure PlotTrace where
  phi : QState
  layers : List LayerRecord
  xs : List ℕ
  ys : List (Option ℝ)
  calls : List OptCall

/-- `GeneratePlot` (source lines 85-123): after `max_L += 1`, sample the target
state once, sweep `L` over `range(2, max_L)` appending one best value per
layer, and hand `plt.plot` the x-list `range(1, max_L)` and the y-list
`best_vals`. -/
noncomputable def GeneratePlot (M : Minimizer) (phiGen : ℕ → QState)
    (r : ℕ → ℝ) (max_L : ℕ) : PlotTrace :=
  let m := max_L + 1
  let phi := phiGen 0
  let obj := Objective phi
  let layers := sweepLayers M obj r 0 (List.range' 2 (m - 2))
  { phi := phi
    layers := layers
    xs := List.range' 1 (m - 1)
    ys := layers.map (·.best)
    calls := layers.flatMap fun lr => lr.starts.map fun st => OptCall.scipyMinimize st lr.bounds }

/-! ### `GridSearch`

`GridSearch` mutates a Python list whose slots normally hold floats, but the
carry step `angles[i] = start_angles` stores a whole list into one slot.  The
slot values are therefore modelled by `PyVal`; operations that would raise on a
list-valued slot (`np.array` over a ragged list, `+=`, `>` against a float)
return `none` and abort the run. -/

/-- A Python value held in a slot of `angles`: a float or a list of floats. -/
inductive PyVal where
  | num (x : ℝ)
  | list (xs : List PyVal)

/-- `np.array(angles)` as used on line 64: a well-formed 1-D float array
exists exactly when every slot is a number; a list-valued slot makes the
array ragged and raises. -/
def toArray : List PyVal → Option (List ℝ)
  | [] => some []
  | PyVal.num x :: rest => (toArray rest).map (x :: ·)
  | PyVal.list _ :: _ => none

/-- `angles[-1]` read as a float (the `while` condition); `none` when the list
is empty or the last slot is not a number. -/
def pyLast : List PyVal → Option ℝ
  | angles =>
    match angles.getLast? with
    | some (PyVal.num x) => some x
    | _ => none

/-- `angles[0] += resolution` (line 69); `none` when slot 0 is missing or not
a number. -/
def incFirst (angles : List PyVal) (res : ℝ) : Option (List PyVal) :=
  match angles.head? with
  | some (PyVal.num x) => some (angles.set 0 (PyVal.num (x + res)))
  | _ => none

/-- The carry loop `for i in range(len(angles))` (lines 70-77): starting at
index `i`, while the slot exceeds its upper limit, stop if it is the last
coordinate, otherwise store the whole `start_angles` list into slot `i`
(the line-74 bug) and bump slot `i+1`; a non-numeric slot read stops with
`none` (a Python `TypeError`). -/
noncomputable def carry (start : List ℝ) (w res : ℝ) (angles : List PyVal) (i : ℕ) :
    Option (List PyVal) :=
  if _h : i < angles.length then
    match angles.get? i with
    | some (PyVal.num x) =>
      if x > start.getD i 0 + w * 1.01 then
        if i = angles.length - 1 then some angles
        else
          let a1 := angles.set i (PyVal.list (start.map PyVal.num))
          match a1.get? (i + 1) with
          | some (PyVal.num y) => carry start w res (a1.set (i + 1) (PyVal.num (y + res))) (i + 1)
          | _ => none
      else some angles
    | _ => none
  else some angles
termination_by angles.length - i
decreasing_by simp [List.length_set]; omega

/-- Update of `best_angles` alongside `opt_val` (lines 65-67). -/
noncomputable def updBest (acc : Option ℝ) (v : ℝ)
    (best : Option (List PyVal)) (angles : List PyVal) : Option (List PyVal) :=
  match acc with
  | none => some angles
  | some a => if v < a then some angles else best

/-- The loop state of `GridSearch`: the mutable `angles` list, the running
minimum (`none` = `float('inf')`) and the best angles seen (`none` =
not yet assigned). -/
structure GSState where
  angles : List PyVal
  optVal : Option ℝ
  best : Option (List PyVal)

/-- How a `GridSearch` run ends: normal loop exit returning
`(best_angles, opt_val)`, a raised error from `np.array` on a ragged list, a
raised `TypeError` from arithmetic or comparison on a list-valued slot, or
fuel exhaustion (the run was cut short, no verdict). -/
inductive GSOut where
  | ok (best : Option (List PyVal)) (optVal : Option ℝ)
  | raggedErr
  | typeErr
  | fuelOut (st : GSState)

/-- The `while` loop of `GridSearch` (lines 63-77), fuelled.  Returns the list
of arguments handed to `np.array`/`Objective` in order, and the outcome. -/
noncomputable def gsRun (f : List ℝ → ℝ) (start : List ℝ) (w res : ℝ) :
    ℕ → GSState → List (List PyVal) × GSOut
  | 0, st => ([], GSOut.fuelOut st)
  | fuel + 1, st =>
    match pyLast st.angles with
    | none => ([], GSOut.typeErr)
    | some last =>
      if last < (start.getLast?.getD 0) + w * 1.01 then
        match toArray st.angles with
        | none => ([st.angles], GSOut.raggedErr)
        | some arr =>
          let v := f arr
          let o := updOpt st.optVal v
          let b := updBest st.optVal v st.best st.angles
          match incFirst st.angles res with
          | none => ([st.angles], GSOut.typeErr)
          | some a1 =>
            match carry start w res a1 0 with
            | none => ([st.angles], GSOut.typeErr)
            | some a2 =>
              let rest := gsRun f start w res fuel ⟨a2, o, b⟩
              (st.angles :: rest.1, rest.2)
      else ([], GSOut.ok st.best st.optVal)

/-- `GridSearch` (source lines 58-78): shift the center down by half the
width, copy it into `angles`, and run the sweep loop.  The objective is the
abstract function `f` on well-formed float arrays. -/
noncomputable def GridSearch (center : List ℝ) (w res : ℝ) (f : List ℝ → ℝ)
    (fuel : ℕ) : List (List PyVal) × GSOut :=
  let start := center.map (fun a => a - w / 2)
  gsRun f start w res fuel ⟨start.map PyVal.num, none, none⟩

/-! ### Structure of the layer sweep -/

lemma sweepLayers_map_L (M : Minimizer) (obj : List ℝ → Option ℝ) (r : ℕ → ℝ) :
    ∀ (off : ℕ) (Ls : List ℕ), (sweepLayers M obj r off Ls).map (·.L) = Ls := by
  intro off Ls
  induction Ls generalizing off with
  | nil => simp [sweepLayers]
  | cons L rest ih => simp [sweepLayers, layerStep, ih]

lemma sweepLayers_map_obj (M : Minimizer) (obj : List ℝ → Option ℝ) (r : ℕ → ℝ) :
    ∀ (off : ℕ) (Ls : List ℕ),
      (sweepLayers M obj r off Ls).map (·.obj) = List.replicate Ls.length obj := by
  intro off Ls
  induction Ls generalizing off with
  | nil => simp [sweepLayers]
  | cons L rest ih => simp [sweepLayers, layerStep, ih, List.replicate_succ]

lemma sweepLayers_length (M : Minimizer) (obj : List ℝ → Option ℝ) (r : ℕ → ℝ)
    (off : ℕ) (Ls : List ℕ) : (sweepLayers M obj r off Ls).length = Ls.length := by
  have := congrArg List.length (sweepLayers_map_L M obj r off Ls)
  simpa using this

/-- C2: for every input `max_L`, `GeneratePlot` runs the multi-start
optimization once per layer count, for `L = 2, 3, ..., max_L` in that
(increasing) order, appending exactly one best value per layer, so `best_vals`
has `max_L - 1` entries. -/
theorem generatePlot_layer_sweep (M : Minimizer) (phiGen : ℕ → QState)
    (r : ℕ → ℝ) (max_L : ℕ) :
    (GeneratePlot M phiGen r max_L).layers.map (·.L) = List.range' 2 (max_L - 1) ∧
    (GeneratePlot M phiGen r max_L).ys =
      (GeneratePlot M phiGen r max_L).layers.map (·.best) ∧
    (GeneratePlot M phiGen r max_L).ys.length = max_L - 1 := by
  have harith : max_L + 1 - 2 = max_L - 1 := by omega
  refine ⟨?_, rfl, ?_⟩
  · simp only [GeneratePlot, harith]
    exact sweepLayers_map_L M _ r 0 _
  · simp only [GeneratePlot, harith, List.length_map]
    rw [sweepLayers_length]
    simp

/-- C7: within one `GeneratePlot` run the target state is the first (and only)
draw from the state sampler, taken before the layer sweep, and every layer's
optimization is handed the objective for that same target state. -/
theorem generatePlot_single_phi (M : Minimizer) (phiGen : ℕ → QState)
    (r : ℕ → ℝ) (max_L : ℕ) :
    (GeneratePlot M phiGen r max_L).phi = phiGen 0 ∧
    (GeneratePlot M phiGen r max_L).layers.map (·.obj) =
      List.replicate (max_L - 1) (Objective (phiGen 0)) := by
  have harith : max_L + 1 - 2 = max_L - 1 := by omega
  refine ⟨rfl, ?_⟩
  simp only [GeneratePlot]
  rw [sweepLayers_map_obj]
  simp [harith]

lemma calls_all_scipy (ls : List LayerRecord) :
    ((ls.flatMap fun lr => lr.starts.map fun st =>
        OptCall.scipyMinimize st lr.bounds).all OptCall.isScipy) = true := by
  induction ls with
  | nil => simp
  | cons lr rest ih =>
      simp only [List.flatMap_cons, List.all_append, ih, Bool.and_true, List.all_eq_true]
      intro c hc
      simp only [List.mem_map] at hc
      obtain ⟨st, _, rfl⟩ := hc
      rfl

/-- C8: every external optimizer invocation `GeneratePlot` makes is a
`scipy.optimize.minimize` call; the custom `GridSearch` routine is never
invoked, so the recorded values cannot depend on it. -/
theorem generatePlot_only_scipy (M : Minimizer) (phiGen : ℕ → QState)
    (r : ℕ → ℝ) (max_L : ℕ) :
    ((GeneratePlot M phiGen r max_L).calls.all OptCall.isScipy) = true ∧
    (GeneratePlot M phiGen r max_L).calls.countP
      (fun c => !c.isScipy) = 0 := by
  constructor
  · exact calls_all_scipy _
  · have h := calls_all_scipy (GeneratePlot M phiGen r max_L).layers
    rw [List.all_eq_true] at h
    rw [List.countP_eq_zero]
    intro c hc
    simp [h c hc]

/-- C1 (code bug): the x-list handed to `plt.plot` is `range(1, max_L + 1)`,
of length `max_L`, while the y-list `best_vals` has `max_L - 1` entries; at
the script's own call `GeneratePlot(2)` the lengths are 2 and 1, so the
x-coordinates cannot match the swept layer counts and `plt.plot` raises. -/
theorem generatePlot_plot_length_mismatch (M : Minimizer) (phiGen : ℕ → QState)
    (r : ℕ → ℝ) (max_L : ℕ) :
    (GeneratePlot M phiGen r max_L).xs = List.range' 1 max_L ∧
    (GeneratePlot M phiGen r max_L).xs.length = max_L ∧
    (GeneratePlot M phiGen r max_L).ys.length = max_L - 1 ∧
    (GeneratePlot M phiGen r 2).xs.length ≠ (GeneratePlot M phiGen r 2).ys.length := by
  have harith : max_L + 1 - 2 = max_L - 1 := by omega
  have hys : ∀ n : ℕ, (GeneratePlot M phiGen r n).ys.length = n - 1 := by
    intro n
    simp only [GeneratePlot, List.length_map]
    rw [sweepLayers_length]
    simp
  refine ⟨?_, ?_, hys max_L, ?_⟩
  · simp [GeneratePlot]
  · simp [GeneratePlot]
  · have h2 : (GeneratePlot M phiGen r 2).xs.length = 2 := by simp [GeneratePlot]
    rw [h2, hys 2]
    omega

/-- C6: `RunCircuit` (and with it the objective) is a deterministic function
of its input: equal angle arrays give equal simulated states and equal
objective values. -/
theorem runCircuit_deterministic (A B : List (List ℝ)) (hAB : A = B)
    (phi : QState) (xs ys : List ℝ) (hxy : xs = ys) :
    RunCircuit A = RunCircuit B ∧ Objective phi xs = Objective phi ys :=
  ⟨congrArg RunCircuit hAB, congrArg (Objective phi) hxy⟩

/-! ### The restart loop records the minimum -/

lemma foldl_updOpt_min (l : List ℝ) :
    ∀ a : ℝ, ∃ b, l.foldl updOpt (some a) = some b ∧ (b = a ∨ b ∈ l) ∧
      b ≤ a ∧ ∀ v ∈ l, b ≤ v := by
  induction l with
  | nil => intro a; exact ⟨a, rfl, Or.inl rfl, le_refl a, by simp⟩
  | cons x l ih =>
      intro a
      by_cases hx : x < a
      · obtain ⟨b, hb1, hb2, hb3, hb4⟩ := ih x
        refine ⟨b, ?_, ?_, ?_, ?_⟩
        · simpa [updOpt, hx] using hb1
        · rcases hb2 with h | h
          · exact Or.inr (by simp [h])
          · exact Or.inr (by simp [h])
        · exact le_trans hb3 (le_of_lt hx)
        · intro v hv
          rcases List.mem_cons.mp hv with rfl | hv
          · exact hb3
          · exact hb4 v hv
      · obtain ⟨b, hb1, hb2, hb3, hb4⟩ := ih a
        refine ⟨b, ?_, ?_, hb3, ?_⟩
        · simpa [updOpt, hx] using hb1
        · rcases hb2 with h | h
          · exact Or.inl h
          · exact Or.inr (by simp [h])
        · intro v hv
          rcases List.mem_cons.mp hv with rfl | hv
          · exact le_trans hb3 (le_of_not_lt hx)
          · exact hb4 v hv

lemma foldMinInf_min (vals : List ℝ) (hne : vals ≠ []) :
    ∃ b, foldMinInf vals = some b ∧ b ∈ vals ∧ ∀ v ∈ vals, b ≤ v := by
  cases vals with
  | nil => exact absurd rfl hne
  | cons x l =>
      obtain ⟨b, hb1, hb2, hb3, hb4⟩ := foldl_updOpt_min l x
      refine ⟨b, ?_, ?_, ?_⟩
      · simpa [foldMinInf, updOpt] using hb1
      · rcases hb2 with h | h
        · simp [h]
        · simp [h]
      · intro v hv
        rcases List.mem_cons.mp hv with rfl | hv
        · exact hb3
        · exact hb4 v hv

/-- C3: each layer's record comes from `layerStep`; a `layerStep` at layer
count `L` performs exactly 10 restarts, each starting from a fresh block of
`8*L` draws of the uniform stream (hence, when the stream ranges over
`[0, 2*pi]`, from a point of the cube `[0, 2*pi]^(8L)`), hands the minimizer
the bounds `(0, 2*pi)` for every one of the `8*L` coordinates, and records as
best value the minimum of the 10 returned final objective values. -/
theorem layer_best_is_min_of_ten_restarts (M : Minimizer) (phiGen : ℕ → QState)
    (r : ℕ → ℝ) (hr : ∀ k, 0 ≤ r k ∧ r k ≤ 2 * Real.pi) (max_L : ℕ) :
    (GeneratePlot M phiGen r max_L).layers =
      sweepLayers M (Objective (phiGen 0)) r 0 (List.range' 2 (max_L - 1)) ∧
    ∀ (obj : List ℝ → Option ℝ) (off L : ℕ),
      (layerStep M obj r off L).vals.length = 10 ∧
      (layerStep M obj r off L).bounds = List.replicate (8 * L) (0, 2 * Real.pi) ∧
      (layerStep M obj r off L).starts = (List.range 10).map
        (fun k => (List.range (8 * L)).map fun j => r (off + k * (8 * L) + j)) ∧
      (∀ s ∈ (layerStep M obj r off L).starts,
        s.length = 8 * L ∧ ∀ x ∈ s, 0 ≤ x ∧ x ≤ 2 * Real.pi) ∧
      (layerStep M obj r off L).vals = (layerStep M obj r off L).starts.map
        (fun s => M obj s (List.replicate (8 * L) (0, 2 * Real.pi))) ∧
      ∃ b, (layerStep M obj r off L).best = some b ∧ b ∈ (layerStep M obj r off L).vals ∧
        ∀ v ∈ (layerStep M obj r off L).vals, b ≤ v := by
  constructor
  · have harith : max_L + 1 - 2 = max_L - 1 := by omega
    simp [GeneratePlot, harith]
  intro obj off L
  refine ⟨by simp [layerStep], rfl, ?_, ?_, rfl, ?_⟩
  · simp [layerStep, uniformDraws, Nat.add_assoc]
  · intro s hs
    simp only [layerStep, List.mem_map] at hs
    obtain ⟨k, _, rfl⟩ := hs
    constructor
    · simp [uniformDraws]
    · intro x hx
      simp only [uniformDraws, List.mem_map] at hx
      obtain ⟨j, _, rfl⟩ := hx
      exact hr _
  · apply foldMinInf_min
    intro hnil
    simp at hnil

/-- Witness for C3 with the constant-zero minimizer and the constant-zero
uniform stream (whose draws lie in `[0, 2*pi]`). -/
theorem layer_best_is_min_of_ten_restarts_witness :
    (∀ k : ℕ, 0 ≤ (fun _ : ℕ => (0 : ℝ)) k ∧ (fun _ : ℕ => (0 : ℝ)) k ≤ 2 * Real.pi) ∧
    ((GeneratePlot (fun _ _ _ => 0) (fun _ => ket0) (fun _ => 0) 2).layers =
      sweepLayers (fun _ _ _ => 0) (Objective ((fun _ : ℕ => ket0) 0)) (fun _ => 0) 0
        (List.range' 2 (2 - 1)) ∧
     ∀ (obj : List ℝ → Option ℝ) (off L : ℕ),
      (layerStep (fun _ _ _ => 0) obj (fun _ => 0) off L).vals.length = 10 ∧
      (layerStep (fun _ _ _ => 0) obj (fun _ => 0) off L).bounds =
        List.replicate (8 * L) (0, 2 * Real.pi) ∧
      (layerStep (fun _ _ _ => 0) obj (fun _ => 0) off L).starts = (List.range 10).map
        (fun k => (List.range (8 * L)).map fun j => (fun _ : ℕ => (0 : ℝ)) (off + k * (8 * L) + j)) ∧
      (∀ s ∈ (layerStep (fun _ _ _ => 0) obj (fun _ => 0) off L).starts,
        s.length = 8 * L ∧ ∀ x ∈ s, 0 ≤ x ∧ x ≤ 2 * Real.pi) ∧
      (layerStep (fun _ _ _ => 0) obj (fun _ => 0) off L).vals =
        (layerStep (fun _ _ _ => 0) obj (fun _ => 0) off L).starts.map
          (fun s => (fun _ _ _ => (0 : ℝ)) obj s (List.replicate (8 * L) (0, 2 * Real.pi))) ∧
      ∃ b, (layerStep (fun _ _ _ => 0) obj (fun _ => 0) off L).best = some b ∧
        b ∈ (layerStep (fun _ _ _ => 0) obj (fun _ => 0) off L).vals ∧
        ∀ v ∈ (layerStep (fun _ _ _ => 0) obj (fun _ => 0) off L).vals, b ≤ v) := by
  have hr : ∀ k : ℕ, 0 ≤ (fun _ : ℕ => (0 : ℝ)) k ∧ (fun _ : ℕ => (0 : ℝ)) k ≤ 2 * Real.pi := by
    intro k
    constructor
    · exact le_refl 0
    · positivity
  exact ⟨hr, layer_best_is_min_of_ten_restarts (fun _ _ _ => 0) (fun _ => ket0)
    (fun _ => 0) hr 2⟩

/-! ### Shape of the built circuit -/

lemma getD_take_lt {l : List ℝ} {n i : ℕ} (h : i < n) (d : ℝ) :
    (l.take n).getD i d = l.getD i d := by
  rcases Nat.lt_or_ge i l.length with hi | hi
  · rw [List.getD_eq_getElem _ _ (by simp; omega), List.getD_eq_getElem _ _ hi]
    simp [List.getElem_take]
  · rw [List.getD_eq_default _ _ (by simp; omega), List.getD_eq_default _ _ hi]

lemma getD_drop (l : List ℝ) (n i : ℕ) (d : ℝ) :
    (l.drop n).getD i d = l.getD (n + i) d := by
  rcases Nat.lt_or_ge (n + i) l.length with hi | hi
  · rw [List.getD_eq_getElem _ _ (by simp; omega), List.getD_eq_getElem _ _ hi]
    simp [List.getElem_drop]
  · rw [List.getD_eq_default _ _ (by simp; omega), List.getD_eq_default _ _ hi]

/-- One layer's even block (on the row's first four entries) followed by its
odd block (on the last four), written out gate by gate. -/
lemma blocks_eq (row : List ℝ) :
    EvenBlockMoments (row.take 4) ++ OddBlockMoments (row.drop 4) =
      [[Gate.rz 0 (row.getD 0 0), Gate.rz 1 (row.getD 1 0),
        Gate.rz 2 (row.getD 2 0), Gate.rz 3 (row.getD 3 0)],
       [Gate.cz 0 1], [Gate.cz 0 2], [Gate.cz 0 3],
       [Gate.cz 1 2], [Gate.cz 1 3], [Gate.cz 2 3],
       [Gate.rx 0 (row.getD 4 0), Gate.rx 1 (row.getD 5 0),
        Gate.rx 2 (row.getD 6 0), Gate.rx 3 (row.getD 7 0)]] := by
  have hfr : List.finRange 4 = [0, 1, 2, 3] := by decide
  have hv3 : ((3 : Fin 4) : ℕ) = 3 := rfl
  simp only [EvenBlockMoments, OddBlockMoments, hfr, List.map_cons, List.map_nil]
  norm_num [getD_take_lt, getD_drop, hv3]

lemma buildCircuit_flatMap :
    ∀ (A : List (List ℝ)) (acc : List Moment),
      A.foldl (fun c row =>
        c ++ EvenBlockMoments (row.take 4) ++ OddBlockMoments (row.drop 4)) acc =
      acc ++ A.flatMap (fun row =>
        EvenBlockMoments (row.take 4) ++ OddBlockMoments (row.drop 4)) := by
  intro A
  induction A with
  | nil => simp
  | cons row rest ih =>
      intro acc
      rw [List.foldl_cons, ih]
      simp [List.flatMap_cons, List.append_assoc]

/-- C5: for every angle array, the circuit is, row by row, one moment of Rz
rotations by the row's first four angles on qubits 0..3, the six CZ gates on
the pairs (0,1),(0,2),(0,3),(1,2),(1,3),(2,3) in that order, then one moment
of Rx rotations by the row's last four angles; `RunCircuit` returns the state
obtained by applying that circuit to `|0000⟩` (a state vector, not a
measurement outcome). -/
theorem runCircuit_structure (A : List (List ℝ)) :
    buildCircuit A = A.flatMap (fun row =>
      [[Gate.rz 0 (row.getD 0 0), Gate.rz 1 (row.getD 1 0),
        Gate.rz 2 (row.getD 2 0), Gate.rz 3 (row.getD 3 0)],
       [Gate.cz 0 1], [Gate.cz 0 2], [Gate.cz 0 3],
       [Gate.cz 1 2], [Gate.cz 1 3], [Gate.cz 2 3],
       [Gate.rx 0 (row.getD 4 0), Gate.rx 1 (row.getD 5 0),
        Gate.rx 2 (row.getD 6 0), Gate.rx 3 (row.getD 7 0)]]) ∧
    RunCircuit A = (buildCircuit A).foldl applyMoment ket0 := by
  refine ⟨?_, rfl⟩
  rw [buildCircuit, buildCircuit_flatMap A []]
  simp only [List.nil_append]
  rw [funext blocks_eq]

/-! ### The objective is the L2 distance to the target on the reshaped array -/

lemma chunksSpec_nil : chunksSpec [] = [] := by
  simp [chunksSpec]

lemma chunksSpec_step (xs : List ℝ) (h : 8 ≤ xs.length) :
    chunksSpec xs = xs.take 8 :: chunksSpec (xs.drop 8) := by
  have hdiv : xs.length / 8 = (xs.drop 8).length / 8 + 1 := by
    simp only [List.length_drop]
    omega
  rw [chunksSpec, chunksSpec, hdiv, List.range_succ_eq_map]
  simp only [List.map_cons, Nat.mul_zero, List.drop_zero, List.map_map]
  congr 1
  apply List.map_congr_left
  intro i _
  simp only [Function.comp_apply, List.drop_drop]
  congr 2
  omega

lemma reshape8_eq_chunks : ∀ (k : ℕ) (xs : List ℝ), xs.length = 8 * k →
    reshape8 xs = some (chunksSpec xs) := by
  intro k
  induction k with
  | zero =>
      intro xs h
      have hx : xs = [] := List.eq_nil_of_length_eq_zero (by omega)
      subst hx
      rw [reshape8, chunksSpec_nil]
      simp
  | succ k ih =>
      intro xs h
      have hlen : 8 ≤ xs.length := by omega
      have hne : xs.isEmpty = false := by
        cases xs
        · simp at h
        · simp
      rw [reshape8]
      rw [if_neg (by simp [hne]), dif_pos hlen]
      rw [ih (xs.drop 8) (by simp only [List.length_drop]; omega)]
      rw [chunksSpec_step xs hlen]
      rfl

/-- C4: for a flat angle vector whose length is a positive multiple of 8, the
objective value is exactly the L2 norm of `phi` minus the state `RunCircuit`
returns on the vector reshaped into `(length / 8)` rows of 8. -/
theorem objective_is_l2_distance (phi : QState) (xs : List ℝ) (k : ℕ)
    (_hk : 0 < k) (hlen : xs.length = 8 * k) :
    Objective phi xs = some (l2norm (phi - RunCircuit (chunksSpec xs))) ∧
    (chunksSpec xs).length = k := by
  constructor
  · rw [Objective, reshape8_eq_chunks k xs hlen]
    rfl
  · simp only [chunksSpec, List.length_map, List.length_range]
    omega

/-- Witness for C4: a concrete vector of eight zero angles. -/
theorem objective_is_l2_distance_witness :
    0 < 1 ∧ (List.replicate 8 (0 : ℝ)).length = 8 * 1 ∧
    (Objective ket0 (List.replicate 8 (0 : ℝ)) =
      some (l2norm (ket0 - RunCircuit (chunksSpec (List.replicate 8 (0 : ℝ))))) ∧
     (chunksSpec (List.replicate 8 (0 : ℝ))).length = 1) :=
  ⟨by norm_num, by simp,
    objective_is_l2_distance ket0 (List.replicate 8 (0 : ℝ)) 1 (by norm_num) (by simp)⟩

/-! ### Every gate is unitary: the simulated state keeps unit norm -/

lemma normSq_exp_of_re_zero {z : ℂ} (hz : z.re = 0) :
    Complex.normSq (Complex.exp z) = 1 := by
  rw [← Complex.sq_abs, Complex.abs_exp, hz, Real.exp_zero, one_pow]

lemma nsq_rz (q : Fin 4) (th : ℝ) (psi : QState) :
    nsq (applyGate (Gate.rz q th) psi) = nsq psi := by
  unfold nsq applyGate
  refine Finset.sum_congr rfl fun i _ => ?_
  rw [Complex.normSq_mul]
  by_cases hb : qubitBit q i
  · rw [if_pos hb, normSq_exp_of_re_zero (by simp), one_mul]
  · rw [if_neg hb, normSq_exp_of_re_zero (by simp), one_mul]

lemma nsq_cz (a b : Fin 4) (psi : QState) :
    nsq (applyGate (Gate.cz a b) psi) = nsq psi := by
  have h : applyGate (Gate.cz a b) psi =
      fun i => if qubitBit a i && qubitBit b i then -psi i else psi i := rfl
  rw [nsq, nsq, h]
  refine Finset.sum_congr rfl fun i _ => ?_
  by_cases hb : qubitBit a i && qubitBit b i
  · simp only [if_pos hb, Complex.normSq_neg]
  · simp only [if_neg hb]

lemma flipBit_invol (q : Fin 4) : Function.Involutive (flipBit q) := by
  intro i
  revert q i
  decide

lemma rx_cross_normSq (c s : ℝ) (a b : ℂ) :
    Complex.normSq ((c : ℂ) * a - Complex.I * (s : ℂ) * b) +
      Complex.normSq ((c : ℂ) * b - Complex.I * (s : ℂ) * a) =
    (c ^ 2 + s ^ 2) * (Complex.normSq a + Complex.normSq b) := by
  simp only [Complex.normSq_apply, Complex.sub_re, Complex.sub_im, Complex.mul_re,
    Complex.mul_im, Complex.I_re, Complex.I_im, Complex.ofReal_re, Complex.ofReal_im]
  ring

lemma nsq_rx (q : Fin 4) (th : ℝ) (psi : QState) :
    nsq (applyGate (Gate.rx q th) psi) = nsq psi := by
  set c := Real.cos (th / 2) with hc
  set s := Real.sin (th / 2) with hs
  set e := Function.Involutive.toPerm (flipBit q) (flipBit_invol q) with he
  have happly : ∀ i, applyGate (Gate.rx q th) psi i =
      (c : ℂ) * psi i - Complex.I * (s : ℂ) * psi (e i) := fun i => rfl
  have hsum : ∀ g : Fin 16 → ℝ, ∑ i, g (e i) = ∑ i, g i :=
    fun g => Equiv.sum_comp e g
  have hdouble : 2 * nsq (applyGate (Gate.rx q th) psi) =
      2 * nsq psi := by
    have lhs : 2 * nsq (applyGate (Gate.rx q th) psi) =
        ∑ i, (Complex.normSq (applyGate (Gate.rx q th) psi i) +
              Complex.normSq (applyGate (Gate.rx q th) psi (e i))) := by
      rw [Finset.sum_add_distrib, hsum fun i => Complex.normSq (applyGate (Gate.rx q th) psi i)]
      rw [nsq]; ring
    have rhs : ∑ i, (Complex.normSq (psi i) + Complex.normSq (psi (e i))) =
        2 * nsq psi := by
      rw [Finset.sum_add_distrib, hsum fun i => Complex.normSq (psi i)]
      rw [nsq]; ring
    rw [lhs, ← rhs]
    refine Finset.sum_congr rfl fun i _ => ?_
    have hei : e (e i) = i := flipBit_invol q i
    rw [happly i, happly (e i), hei, rx_cross_normSq c s (psi i) (psi (e i)),
      hc, hs, Real.cos_sq_add_sin_sq, one_mul]
  linarith

lemma nsq_gate (g : Gate) (psi : QState) : nsq (applyGate g psi) = nsq psi := by
  cases g with
  | rz q th => exact nsq_rz q th psi
  | rx q th => exact nsq_rx q th psi
  | cz a b => exact nsq_cz a b psi

lemma nsq_moment (m : Moment) : ∀ psi : QState, nsq (applyMoment psi m) = nsq psi := by
  induction m with
  | nil => intro psi; rfl
  | cons g gs ih =>
      intro psi
      rw [applyMoment, List.foldl_cons]
      have := ih (applyGate g psi)
      rw [applyMoment] at this
      rw [this, nsq_gate]

lemma nsq_circuit (ms : List Moment) :
    ∀ psi : QState, nsq (ms.foldl applyMoment psi) = nsq psi := by
  induction ms with
  | nil => intro psi; rfl
  | cons m rest ih =>
      intro psi
      rw [List.foldl_cons, ih, nsq_moment]

lemma nsq_ket0 : nsq ket0 = 1 := by
  have h : ∀ i : Fin 16, Complex.normSq (ket0 i) = if i = 0 then 1 else 0 := by
    intro i
    simp only [ket0]
    by_cases hi : i = 0
    · simp [hi]
    · simp [hi]
  rw [nsq, Finset.sum_congr rfl fun i _ => h i]
  simp

lemma l2norm_eq_norm (psi : QState) :
    l2norm psi = ‖(WithLp.equiv 2 (Fin 16 → ℂ)).symm psi‖ := by
  rw [EuclideanSpace.norm_eq, l2norm, nsq]
  congr 1
  refine Finset.sum_congr rfl fun i _ => ?_
  rw [WithLp.equiv_symm_pi_apply, Complex.norm_eq_abs, Complex.sq_abs]

lemma l2norm_nonneg (psi : QState) : 0 ≤ l2norm psi := Real.sqrt_nonneg _

lemma l2norm_sub_le (phi psi : QState) :
    l2norm (phi - psi) ≤ l2norm phi + l2norm psi := by
  rw [l2norm_eq_norm, l2norm_eq_norm, l2norm_eq_norm]
  exact norm_sub_le _ _

/-- C9: the simulated state is a 16-amplitude vector of unit L2 norm (all
gates are unitary and the initial state `|0000⟩` is a unit vector), so against
a unit-norm target `phi` the objective always lies in `[0, 2]`. -/
theorem runCircuit_unit_norm (A : List (List ℝ)) (_hA : 1 ≤ A.length)
    (phi : QState) (hphi : l2norm phi = 1) :
    l2norm (RunCircuit A) = 1 ∧
    0 ≤ l2norm (phi - RunCircuit A) ∧ l2norm (phi - RunCircuit A) ≤ 2 := by
  have hunit : l2norm (RunCircuit A) = 1 := by
    rw [l2norm, RunCircuit, nsq_circuit, nsq_ket0, Real.sqrt_one]
  refine ⟨hunit, l2norm_nonneg _, ?_⟩
  calc l2norm (phi - RunCircuit A) ≤ l2norm phi + l2norm (RunCircuit A) :=
        l2norm_sub_le _ _
    _ = 2 := by rw [hphi, hunit]; norm_num

/-- Witness for C9: one layer of zero angles against the target `|0000⟩`. -/
theorem runCircuit_unit_norm_witness :
    1 ≤ ([List.replicate 8 (0 : ℝ)] : List (List ℝ)).length ∧ l2norm ket0 = 1 ∧
    (l2norm (RunCircuit [List.replicate 8 (0 : ℝ)]) = 1 ∧
     0 ≤ l2norm (ket0 - RunCircuit [List.replicate 8 (0 : ℝ)]) ∧
     l2norm (ket0 - RunCircuit [List.replicate 8 (0 : ℝ)]) ≤ 2) := by
  have hphi : l2norm ket0 = 1 := by
    rw [l2norm, nsq_ket0, Real.sqrt_one]
  exact ⟨by norm_num, hphi,
    runCircuit_unit_norm [List.replicate 8 (0 : ℝ)] (by norm_num) ket0 hphi⟩

/-! ### The `GridSearch` carry step stores the whole start list -/

lemma toArray_map_num : ∀ l : List ℝ, toArray (l.map PyVal.num) = some l := by
  intro l
  induction l with
  | nil => rfl
  | cons x t ih => simp [toArray, ih]

lemma pyLast_map_num (l : List ℝ) (h : l ≠ []) :
    pyLast (l.map PyVal.num) = some (l.getLast h) := by
  rw [pyLast, List.getLast?_map, List.getLast?_eq_getLast l h]
  rfl

lemma carry_no_trigger (s : List ℝ) (w res y : ℝ) (tail : List PyVal)
    (hy : ¬ (y > s.getD 0 0 + w * 1.01)) :
    carry s w res (PyVal.num y :: tail) 0 = some (PyVal.num y :: tail) := by
  rw [carry]
  rw [dif_pos (show (0 : ℕ) < (PyVal.num y :: tail).length by simp)]
  simp only [List.get?_cons_zero]
  rw [if_neg hy]

lemma carry_trigger (s₀ s₁ : ℝ) (s2 : List ℝ) (w res y z : ℝ) (tail2 : List PyVal)
    (hy : y > s₀ + w * 1.01)
    (hz : ¬ (z + res > s₁ + w * 1.01)) :
    carry (s₀ :: s₁ :: s2) w res (PyVal.num y :: PyVal.num z :: tail2) 0 =
      some (PyVal.list ((s₀ :: s₁ :: s2).map PyVal.num) :: PyVal.num (z + res) :: tail2) := by
  rw [carry]
  rw [dif_pos (show (0 : ℕ) < (PyVal.num y :: PyVal.num z :: tail2).length by simp)]
  simp only [List.get?_cons_zero]
  rw [if_pos (show y > (s₀ :: s₁ :: s2).getD 0 0 + w * 1.01 from hy)]
  rw [if_neg (show ¬ ((0 : ℕ) = (PyVal.num y :: PyVal.num z :: tail2).length - 1) by simp)]
  simp only [List.set_cons_zero, List.set_cons_succ, List.get?_cons_succ,
    List.get?_cons_zero, zero_add]
  rw [carry]
  rw [dif_pos (show (1 : ℕ) <
    (PyVal.list ((s₀ :: s₁ :: s2).map PyVal.num) :: PyVal.num (z + res) :: tail2).length by simp)]
  simp only [List.get?_cons_succ, List.get?_cons_zero]
  rw [if_neg (show ¬ (z + res > (s₀ :: s₁ :: s2).getD 1 0 + w * 1.01) from hz)]

lemma gsRun_step_ragged (f : List ℝ → ℝ) (s : List ℝ) (w res : ℝ) (fuel : ℕ)
    (ls tail : List PyVal) (o : Option ℝ) (b : Option (List PyVal))
    (lastv : ℝ) (hlast : pyLast (PyVal.list ls :: tail) = some lastv)
    (hlt : lastv < s.getLast?.getD 0 + w * 1.01) :
    gsRun f s w res (fuel + 1) ⟨PyVal.list ls :: tail, o, b⟩ =
      ([PyVal.list ls :: tail], GSOut.raggedErr) := by
  rw [gsRun]
  simp only [hlast, if_pos hlt]
  rfl

lemma gsRun_step_normal (f : List ℝ → ℝ) (s₀ s₁ : ℝ) (s2 : List ℝ) (w res x : ℝ)
    (fuel : ℕ) (o : Option ℝ) (b : Option (List PyVal))
    (hw : 0 < w * 1.01)
    (hnc : ¬ (x + res > s₀ + w * 1.01)) :
    gsRun f (s₀ :: s₁ :: s2) w res (fuel + 1)
        ⟨PyVal.num x :: (s₁ :: s2).map PyVal.num, o, b⟩ =
      ((PyVal.num x :: (s₁ :: s2).map PyVal.num) ::
        (gsRun f (s₀ :: s₁ :: s2) w res fuel
          ⟨PyVal.num (x + res) :: (s₁ :: s2).map PyVal.num,
           updOpt o (f (x :: s₁ :: s2)),
           updBest o (f (x :: s₁ :: s2)) b
             (PyVal.num x :: (s₁ :: s2).map PyVal.num)⟩).1,
       (gsRun f (s₀ :: s₁ :: s2) w res fuel
          ⟨PyVal.num (x + res) :: (s₁ :: s2).map PyVal.num,
           updOpt o (f (x :: s₁ :: s2)),
           updBest o (f (x :: s₁ :: s2)) b
             (PyVal.num x :: (s₁ :: s2).map PyVal.num)⟩).2) := by
  have hne : (x :: s₁ :: s2) ≠ [] := by simp
  have hlast : pyLast (PyVal.num x :: (s₁ :: s2).map PyVal.num) =
      some ((x :: s₁ :: s2).getLast hne) := by
    rw [← List.map_cons]
    exact pyLast_map_num _ hne
  have hlast2 : (x :: s₁ :: s2).getLast hne = (s₁ :: s2).getLast (by simp) :=
    List.getLast_cons _
  have hlastS : (s₀ :: s₁ :: s2).getLast? =
      some ((s₁ :: s2).getLast (by simp)) := by
    rw [List.getLast?_eq_getLast _ (by simp)]
    exact congrArg some (List.getLast_cons _)
  have hcond : (x :: s₁ :: s2).getLast hne <
      (s₀ :: s₁ :: s2).getLast?.getD 0 + w * 1.01 := by
    rw [hlastS, hlast2]
    simp only [Option.getD_some]
    linarith
  have harr : toArray (PyVal.num x :: (s₁ :: s2).map PyVal.num) =
      some (x :: s₁ :: s2) := by
    rw [← List.map_cons]
    exact toArray_map_num _
  rw [gsRun]
  simp only [hlast, if_pos hcond, harr]
  have hinc : incFirst (PyVal.num x :: (s₁ :: s2).map PyVal.num) res =
      some (PyVal.num (x + res) :: (s₁ :: s2).map PyVal.num) := rfl
  simp only [hinc]
  rw [carry_no_trigger _ _ _ _ _ (by simpa using hnc)]

lemma gsRun_step_trigger (f : List ℝ → ℝ) (s₀ s₁ : ℝ) (s2 : List ℝ) (w res x : ℝ)
    (fuel : ℕ) (o : Option ℝ) (b : Option (List PyVal))
    (hw : 0 < w * 1.01)
    (htr : x + res > s₀ + w * 1.01)
    (hz : ¬ (res > w * 1.01)) :
    gsRun f (s₀ :: s₁ :: s2) w res (fuel + 1)
        ⟨PyVal.num x :: (s₁ :: s2).map PyVal.num, o, b⟩ =
      ((PyVal.num x :: (s₁ :: s2).map PyVal.num) ::
        (gsRun f (s₀ :: s₁ :: s2) w res fuel
          ⟨PyVal.list ((s₀ :: s₁ :: s2).map PyVal.num) ::
             PyVal.num (s₁ + res) :: s2.map PyVal.num,
           updOpt o (f (x :: s₁ :: s2)),
           updBest o (f (x :: s₁ :: s2)) b
             (PyVal.num x :: (s₁ :: s2).map PyVal.num)⟩).1,
       (gsRun f (s₀ :: s₁ :: s2) w res fuel
          ⟨PyVal.list ((s₀ :: s₁ :: s2).map PyVal.num) ::
             PyVal.num (s₁ + res) :: s2.map PyVal.num,
           updOpt o (f (x :: s₁ :: s2)),
           updBest o (f (x :: s₁ :: s2)) b
             (PyVal.num x :: (s₁ :: s2).map PyVal.num)⟩).2) := by
  have hne : (x :: s₁ :: s2) ≠ [] := by simp
  have hlast : pyLast (PyVal.num x :: (s₁ :: s2).map PyVal.num) =
      some ((x :: s₁ :: s2).getLast hne) := by
    rw [← List.map_cons]
    exact pyLast_map_num _ hne
  have hlast2 : (x :: s₁ :: s2).getLast hne = (s₁ :: s2).getLast (by simp) :=
    List.getLast_cons _
  have hlastS : (s₀ :: s₁ :: s2).getLast? =
      some ((s₁ :: s2).getLast (by simp)) := by
    rw [List.getLast?_eq_getLast _ (by simp)]
    exact congrArg some (List.getLast_cons _)
  have hcond : (x :: s₁ :: s2).getLast hne <
      (s₀ :: s₁ :: s2).getLast?.getD 0 + w * 1.01 := by
    rw [hlastS, hlast2]
    simp only [Option.getD_some]
    linarith
  have harr : toArray (PyVal.num x :: (s₁ :: s2).map PyVal.num) =
      some (x :: s₁ :: s2) := by
    rw [← List.map_cons]
    exact toArray_map_num _
  rw [gsRun]
  simp only [hlast, if_pos hcond, harr]
  simp only [List.map_cons]
  have hinc : incFirst (PyVal.num x :: PyVal.num s₁ :: s2.map PyVal.num) res =
      some (PyVal.num (x + res) :: PyVal.num s₁ :: s2.map PyVal.num) := rfl
  simp only [hinc]
  rw [carry_trigger s₀ s₁ s2 w res (x + res) s₁ (s2.map PyVal.num) htr
    (by intro hcon; exact hz (by linarith))]
  simp only [List.map_cons]

lemma pyLast_cons_of_ne_nil (v : PyVal) (l : List PyVal) (h : l ≠ []) :
    pyLast (v :: l) = pyLast l := by
  cases l with
  | nil => exact absurd rfl h
  | cons a t => rw [pyLast, pyLast, List.getLast?_cons_cons]

lemma ragged_while_cond (s₀ s₁ : ℝ) (s2 : List ℝ) (w res : ℝ)
    (hw : 0 < w) (hstep : res < w * 1.01) :
    ∃ lastv, pyLast (PyVal.list ((s₀ :: s₁ :: s2).map PyVal.num) ::
        PyVal.num (s₁ + res) :: s2.map PyVal.num) = some lastv ∧
      lastv < (s₀ :: s₁ :: s2).getLast?.getD 0 + w * 1.01 := by
  cases s2 with
  | nil =>
      refine ⟨s₁ + res, rfl, ?_⟩
      have : ((s₀ :: s₁ :: [] : List ℝ)).getLast?.getD 0 = s₁ := rfl
      rw [this]
      linarith
  | cons c t =>
      have hne : ((s₁ + res) :: c :: t : List ℝ) ≠ [] := by simp
      have hne2 : (c :: t : List ℝ) ≠ [] := by simp
      refine ⟨(c :: t).getLast hne2, ?_, ?_⟩
      · rw [show (PyVal.num (s₁ + res) :: (c :: t).map PyVal.num) =
            (((s₁ + res) :: c :: t).map PyVal.num) from rfl]
        rw [pyLast_cons_of_ne_nil _ _ (by simp)]
        rw [pyLast_map_num _ hne]
        rw [List.getLast_cons hne2]
      · rw [List.getLast?_eq_getLast _ (by simp)]
        rw [show (s₀ :: s₁ :: c :: t).getLast (by simp) = (c :: t).getLast hne2 from ?_]
        · simp only [Option.getD_some]
          linarith
        · rw [List.getLast_cons (by simp : (s₁ :: c :: t : List ℝ) ≠ [])]
          exact List.getLast_cons hne2

lemma gsRun_hits_ragged (f : List ℝ → ℝ) (s₀ s₁ : ℝ) (s2 : List ℝ) (w res : ℝ)
    (hw : 0 < w) (_hres : 0 < res) (hstep : res < w * 1.01) :
    ∀ (m k : ℕ) (o : Option ℝ) (b : Option (List PyVal)),
      (((k + m + 1 : ℕ) : ℝ) * res > w * 1.01) →
      (∀ j : ℕ, j ≤ k + m → ¬ (((j : ℕ) : ℝ) * res > w * 1.01)) →
      gsRun f (s₀ :: s₁ :: s2) w res (m + 2)
          ⟨PyVal.num (s₀ + k * res) :: (s₁ :: s2).map PyVal.num, o, b⟩ =
        ((List.range' k (m + 1)).map
            (fun j => PyVal.num (s₀ + j * res) :: (s₁ :: s2).map PyVal.num) ++
          [PyVal.list ((s₀ :: s₁ :: s2).map PyVal.num) ::
             PyVal.num (s₁ + res) :: s2.map PyVal.num],
         GSOut.raggedErr) := by
  have hw101 : 0 < w * 1.01 := by linarith
  intro m
  induction m with
  | zero =>
      intro k o b htrig hno
      have htr : (s₀ + k * res) + res > s₀ + w * 1.01 := by
        have h1 : ((k + 0 + 1 : ℕ) : ℝ) * res > w * 1.01 := htrig
        push_cast at h1
        linarith
      rw [show (0 + 2 : ℕ) = 1 + 1 from rfl]
      rw [gsRun_step_trigger f s₀ s₁ s2 w res (s₀ + k * res) 1 o b hw101 htr
        (by linarith)]
      obtain ⟨lastv, hlast, hlt⟩ := ragged_while_cond s₀ s₁ s2 w res hw hstep
      rw [show (1 : ℕ) = 0 + 1 from rfl]
      rw [gsRun_step_ragged f (s₀ :: s₁ :: s2) w res 0 _ _ _ _ lastv hlast hlt]
      simp [List.range']
  | succ m ih =>
      intro k o b htrig hno
      have hnc : ¬ ((s₀ + k * res) + res > s₀ + w * 1.01) := by
        have h1 := hno (k + 1) (by omega)
        push_cast at h1
        intro hcon
        exact h1 (by linarith)
      rw [show (m + 1 + 2 : ℕ) = (m + 2) + 1 from rfl]
      rw [gsRun_step_normal f s₀ s₁ s2 w res (s₀ + k * res) (m + 2) o b hw101 hnc]
      have harg : s₀ + k * res + res = s₀ + ((k + 1 : ℕ) : ℝ) * res := by
        push_cast
        ring
      rw [harg]
      have htrig2 : (((k + 1) + m + 1 : ℕ) : ℝ) * res > w * 1.01 := by
        rw [show (k + 1) + m + 1 = k + (m + 1) + 1 from by omega]
        exact htrig
      have hno2 : ∀ j : ℕ, j ≤ (k + 1) + m → ¬ (((j : ℕ) : ℝ) * res > w * 1.01) := by
        intro j hj
        exact hno j (by omega)
      rw [ih (k + 1) _ _ htrig2 hno2]
      rw [show List.range' k (m + 1 + 1) = k :: List.range' (k + 1) (m + 1) from rfl]
      simp

/-- C10: with at least two coordinates and at least two grid steps per
coordinate (`0 < res < w * 1.01`), once the first coordinate overflows, line
74 stores the whole `start_angles` list into slot 0 (the argument's head
becomes that entire list while slot 1 still holds a number), the next
`np.array(angles)` call receives this ragged list and raises, and the run
crashes without ever evaluating the objective off the `angles[1] = start[1]`
slice of the grid: every argument is either not convertible to a float array
or still has its second coordinate at the start value. -/
theorem gridSearch_carry_stores_start_list (c : List ℝ) (f : List ℝ → ℝ)
    (w res : ℝ) (hc : 2 ≤ c.length) (hres : 0 < res) (hstep : res < w * 1.01) :
    ∃ fuel calls,
      GridSearch c w res f fuel = (calls, GSOut.raggedErr) ∧
      ∃ pre arg, calls = pre ++ [arg] ∧
        arg.head? = some (PyVal.list ((c.map fun a => a - w / 2).map PyVal.num)) ∧
        (∃ x, arg.get? 1 = some (PyVal.num x)) ∧
        toArray arg = none ∧
        ∀ a ∈ calls, toArray a = none ∨
          a.get? 1 = some (PyVal.num ((c.map fun a => a - w / 2).getD 1 0)) := by
  have hw : 0 < w := by linarith
  obtain ⟨c₀, rest, rfl⟩ : ∃ c₀ rest, c = c₀ :: rest := by
    cases c with
    | nil => simp at hc
    | cons a t => exact ⟨a, t, rfl⟩
  obtain ⟨c₁, c2, rfl⟩ : ∃ c₁ c2, rest = c₁ :: c2 := by
    cases rest with
    | nil => simp at hc
    | cons a t => exact ⟨a, t, rfl⟩
  have hP : ∃ n : ℕ, (n : ℝ) * res > w * 1.01 := by
    obtain ⟨n, hn⟩ := exists_nat_gt ((w * 1.01) / res)
    refine ⟨n, ?_⟩
    rw [div_lt_iff₀ hres] at hn
    exact hn
  haveI : DecidablePred fun n : ℕ => (n : ℝ) * res > w * 1.01 :=
    Classical.decPred _
  have hn₀ : ((Nat.find hP : ℕ) : ℝ) * res > w * 1.01 := Nat.find_spec hP
  have hmin : ∀ j : ℕ, j < Nat.find hP → ¬ ((j : ℝ) * res > w * 1.01) :=
    fun j hj => Nat.find_min hP hj
  have hn₀pos : 1 ≤ Nat.find hP := by
    by_contra hcon
    have h0 : Nat.find hP = 0 := by omega
    rw [h0] at hn₀
    simp at hn₀
    linarith
  have htrig : ((0 + (Nat.find hP - 1) + 1 : ℕ) : ℝ) * res > w * 1.01 := by
    rw [show 0 + (Nat.find hP - 1) + 1 = Nat.find hP from by omega]
    exact hn₀
  have hno : ∀ j : ℕ, j ≤ 0 + (Nat.find hP - 1) → ¬ ((j : ℝ) * res > w * 1.01) := by
    intro j hj
    exact hmin j (by omega)
  have hrun := gsRun_hits_ragged f (c₀ - w / 2) (c₁ - w / 2)
    (c2.map fun a => a - w / 2) w res hw hres hstep (Nat.find hP - 1) 0 none none
    htrig hno
  rw [show (c₀ - w / 2) + ((0 : ℕ) : ℝ) * res = c₀ - w / 2 from by push_cast; ring]
    at hrun
  refine ⟨(Nat.find hP - 1) + 2,
    (List.range' 0 (Nat.find hP - 1 + 1)).map
        (fun j => PyVal.num ((c₀ - w / 2) + j * res) ::
          ((c₁ - w / 2) :: c2.map fun a => a - w / 2).map PyVal.num) ++
      [PyVal.list (((c₀ - w / 2) :: (c₁ - w / 2) ::
          c2.map fun a => a - w / 2).map PyVal.num) ::
        PyVal.num ((c₁ - w / 2) + res) :: (c2.map fun a => a - w / 2).map PyVal.num],
    ?_, ?_⟩
  · rw [GridSearch]
    simp only [List.map_cons]
    simp only [List.map_cons] at hrun
    exact hrun
  · refine ⟨_, _, rfl, ?_, ⟨(c₁ - w / 2) + res, rfl⟩, rfl, ?_⟩
    · simp
    · intro a ha
      rcases List.mem_append.mp ha with hmem | hmem
      · right
        simp only [List.mem_map] at hmem
        obtain ⟨j, _, rfl⟩ := hmem
        simp [List.getD]
      · left
        simp only [List.mem_singleton] at hmem
        subst hmem
        rfl

/-- Witness for C10: the concrete center `[0, 0]`, width 1, resolution 1 and
the constant-zero objective. -/
theorem gridSearch_carry_stores_start_list_witness :
    2 ≤ ([0, 0] : List ℝ).length ∧ (0 : ℝ) < 1 ∧ (1 : ℝ) < 1 * 1.01 ∧
    (∃ fuel calls,
      GridSearch [0, 0] 1 1 (fun _ => 0) fuel = (calls, GSOut.raggedErr) ∧
      ∃ pre arg, calls = pre ++ [arg] ∧
        arg.head? = some (PyVal.list ((([0, 0] : List ℝ).map fun a => a - 1 / 2).map PyVal.num)) ∧
        (∃ x, arg.get? 1 = some (PyVal.num x)) ∧
        toArray arg = none ∧
        ∀ a ∈ calls, toArray a = none ∨
          a.get? 1 = some (PyVal.num ((([0, 0] : List ℝ).map fun a => a - 1 / 2).getD 1 0))) :=
  ⟨by norm_num, by norm_num, by norm_num,
    gridSearch_carry_stores_start_list [0, 0] (fun _ => 0) 1 1
      (by norm_num) (by norm_num) (by norm_num)⟩

/-- Witness for C6 at a concrete one-layer angle array. -/
theorem runCircuit_deterministic_witness :
    RunCircuit [[0, 0, 0, 0, 0, 0, 0, 0]] = RunCircuit [[0, 0, 0, 0, 0, 0, 0, 0]] ∧
    Objective ket0 [0, 0, 0, 0, 0, 0, 0, 0] = Objective ket0 [0, 0, 0, 0, 0, 0, 0, 0] :=
  runCircuit_deterministic [[0, 0, 0, 0, 0, 0, 0, 0]] [[0, 0, 0, 0, 0, 0, 0, 0]] rfl
    ket0 [0, 0, 0, 0, 0, 0, 0, 0] [0, 0, 0, 0, 0, 0, 0, 0] rfl
